import Mathlib

/-!
Verification development for the NxBCI multi-transport biosignal acquisition SDK.

The Python sources (`Serial_Receiver.py`, `TCP_Receiver.py`, `Replay.py`,
`MultiSourceController.py`, `AsyncCSVLogger.py`) are embedded shallowly:
byte strings become `List Nat` (each entry a byte value `< 256`), Python
floats become `ℚ` (every arithmetic operation appearing in the EMG decode
path is exact in binary floating point, as each intermediate is an integer
multiple of a power of two well below 2^53, so rationals model the float
results exactly), `collections.deque(maxlen=c)` becomes a list with a
drop-oldest push, and the worker loops become explicit state-stepping
functions.
-/

namespace NxBCI

/-- Python list slicing `l[s:e]` for `0 ≤ s ≤ e`: the elements at indices `s ≤ i < e`. -/
def pySlice (l : List α) (s e : Nat) : List α := (l.take e).drop s

/-- Append on a `collections.deque(maxlen=maxlen)`: appending beyond capacity
evicts elements from the left until the length is back to `maxlen`. -/
def dequePush (maxlen : Nat) (q : List α) (x : α) : List α :=
  let q' := q ++ [x]
  if maxlen < q'.length then q'.drop (q'.length - maxlen) else q'

/-- The constant `LSB = 1.5 / (2 ** 23)` shared by `Serial_Receiver`,
`TCP_Receiver` and `Replay`. -/
def LSB : ℚ := 1.5 / 2 ^ 23

/-- `TCP_Receiver._extract_voltage` (the identical function also appears as
`Replay._extract_voltage`): if bit 23 is set, subtract `1 << 24`, then scale by
`LSB * 1000` to get millivolts. -/
def extractVoltage (u : Nat) : ℚ :=
  let raw : ℤ := if u &&& (1 <<< 23) ≠ 0 then (u : ℤ) - ((1 <<< 24 : Nat) : ℤ) else (u : ℤ)
  (raw : ℚ) * LSB * 1000

/-- `int.from_bytes(bs, 'big', signed=False)`. -/
def intFromBytesBE (bs : List Nat) : Nat := bs.foldl (fun acc b => acc * 256 + b) 0

/-- The EMG field extraction of `TCP_Receiver._process_packet` and
`Replay._parse_and_append`: `offset = i * 3`, take `packet[offset:offset+3]`,
read big-endian, convert via `_extract_voltage`. -/
def packetEMGValue (packet : List Nat) (i : Nat) : ℚ :=
  extractVoltage (intFromBytesBE (pySlice packet (i * 3) (i * 3 + 3)))

/-- The list `voltages` built by `TCP_Receiver._process_packet` for
`i in range(num_channels)`. -/
def processPacketEMG (channels : Nat) (packet : List Nat) : List ℚ :=
  (List.range channels).map (fun i => packetEMGValue packet i)

/-- The u24 assembly of `Serial_Receiver._parse_valid_frame`:
`(arr[:,0] << 16) | (arr[:,1] << 8) | arr[:,2]` on the bytes of channel row `i`. -/
def serialU24 (b0 b1 b2 : Nat) : Nat := ((b0 <<< 16) ||| (b1 <<< 8)) ||| b2

/-- The sign fold and scaling of `Serial_Receiver._parse_valid_frame`: values
`>= 0x800000` get `0x1000000` subtracted, then the result is `* LSB * 1000.0`. -/
def serialVoltage (u24 : Nat) : ℚ :=
  let signed : ℤ := if 0x800000 ≤ u24 then (u24 : ℤ) - 0x1000000 else (u24 : ℤ)
  (signed : ℚ) * LSB * 1000

/-- The 16 channel voltages computed by `Serial_Receiver._parse_valid_frame`
on a 48-byte unescaped payload (reshaped `(16, 3)`, row `i` = channel `i`). -/
def parseValidFrame (data : List Nat) : List ℚ :=
  (List.range 16).map (fun i =>
    serialVoltage (serialU24 (data.getD (3 * i) 0) (data.getD (3 * i + 1) 0)
      (data.getD (3 * i + 2) 0)))

/-- Refinement target for the specification text of claim C1: take the 3 bytes
at offset `3*i`, interpret them as a 24-bit big-endian two's-complement integer
(bit 23 is the sign bit), and compute `voltage = raw * (1.5 / 2^23) * 1000`. -/
def specEMGValue (packet : List Nat) (i : Nat) : ℚ :=
  let u := intFromBytesBE (pySlice packet (3 * i) (3 * i + 3))
  let raw : ℤ := if 2 ^ 23 ≤ u then (u : ℤ) - 2 ^ 24 else (u : ℤ)
  (raw : ℚ) * (1.5 / 2 ^ 23) * 1000

/-- Protocol constant `FRAME_HEAD` of `Serial_Receiver`. -/
def FRAME_HEAD : Nat := 0x0A

/-- Protocol constant `FRAME_TAIL` of `Serial_Receiver`. -/
def FRAME_TAIL : Nat := 0x0D

/-- Protocol constant `ESCAPE_BYTE` of `Serial_Receiver`. -/
def ESCAPE_BYTE : Nat := 0x1B

/-- Protocol constant `ESCAPE_HEAD` of `Serial_Receiver`. -/
def ESCAPE_HEAD : Nat := 0x01

/-- Protocol constant `ESCAPE_TAIL` of `Serial_Receiver`. -/
def ESCAPE_TAIL : Nat := 0x02

/-- Protocol constant `ESCAPE_ESC` of `Serial_Receiver`. -/
def ESCAPE_ESC : Nat := 0x03

/-- `Serial_Receiver._unescape_data`: scan left to right; on `ESCAPE_BYTE` with
a successor byte, emit the mapped literal (`0x01 → 0x0A`, `0x02 → 0x0D`,
`0x03 → 0x1B`, anything else → the escape byte itself) and advance by two; a
trailing lone escape byte is consumed without output. -/
def unescapeData : List Nat → List Nat
  | [] => []
  | [a] => if a = ESCAPE_BYTE then [] else [a]
  | a :: b :: rest =>
    if a = ESCAPE_BYTE then
      (if b = ESCAPE_HEAD then FRAME_HEAD
       else if b = ESCAPE_TAIL then FRAME_TAIL
       else if b = ESCAPE_ESC then ESCAPE_BYTE
       else ESCAPE_BYTE) :: unescapeData rest
    else a :: unescapeData (b :: rest)

/-- The 16 per-channel deques `Serial_Receiver.channel_queues`, each with
`maxlen=4000`; lists are oldest-first. -/
abbrev Queues := List (List ℚ)

/-- Capacity of each `Serial_Receiver.channel_queues` entry (`deque(maxlen=4000)`). -/
def SERIAL_QUEUE_MAXLEN : Nat := 4000

/-- The appending stage of `Serial_Receiver._parse_valid_frame`:
`for i in range(16): self.channel_queues[i].append(volts[i])`. -/
def parseValidFrameQ (data : List Nat) (qs : Queues) : Queues :=
  qs.mapIdx (fun i q => dequePush SERIAL_QUEUE_MAXLEN q ((parseValidFrame data).getD i 0))

/-- `Serial_Receiver._append_dummy_frame`: append `0.0` to every channel queue. -/
def appendDummyFrame (qs : Queues) : Queues :=
  qs.map (fun q => dequePush SERIAL_QUEUE_MAXLEN q 0)

/-- The payload dispatch at the end of each `Serial_Receiver._process_buffer`
iteration: unescape, then parse when the length is exactly `FRAME_SIZE = 48`,
otherwise append a dummy frame. -/
def handleFrame (payload : List Nat) (qs : Queues) : Queues :=
  let unescaped := unescapeData payload
  if unescaped.length = 48 then parseValidFrameQ unescaped qs else appendDummyFrame qs

/-- `Serial_Receiver._process_buffer`: repeatedly search for a `FRAME_HEAD`,
drop garbage before it, search for a `FRAME_TAIL` at index `>= 1`, extract the
delimited payload, and dispatch it through `handleFrame`; mirrors the byte
deletions of the Python `while` loop. Returns the remaining byte buffer and
the updated channel queues. -/
def processBuffer (buffer : List Nat) (qs : Queues) : List Nat × Queues :=
  if h : 48 + 2 ≤ buffer.length then
    match buffer.findIdx? (· = FRAME_HEAD) with
    | none => ([], qs)
    | some headIdx =>
      let buf1 := buffer.drop headIdx
      match (buf1.drop 1).findIdx? (· = FRAME_TAIL) with
      | none => if 48 * 2 < buf1.length then (buf1.drop 1, qs) else (buf1, qs)
      | some j =>
        let tailIdx := j + 1
        let rest := buf1.drop (tailIdx + 1)
        processBuffer rest (handleFrame (pySlice buf1 1 tailIdx) qs)
  else (buffer, qs)
termination_by buffer.length
decreasing_by
  simp only [List.length_drop]
  omega

/-- `Serial_Receiver.pop_new_data`: `None` when channel 0 is empty, otherwise
the matrix `[list(q) for q in channel_queues]` together with all queues
cleared.  Returns the result and the post-call queue state. -/
def popNewData (qs : Queues) : Option (List (List ℚ)) × Queues :=
  if (qs.getD 0 []).isEmpty then (none, qs)
  else (some qs, qs.map (fun _ => ([] : List ℚ)))

/-- A matrix as handled by `MultiSourceController` and `AsyncCSVLogger`,
as a list of rows. -/
abbrev Mat := List (List ℚ)

/-- Matrix transpose, modelling `data_matrix.T` in `AsyncCSVLogger.push_data`
(the numpy inputs are rectangular). -/
def transposeMat (m : Mat) : Mat :=
  (List.range ((m.headD []).length)).map (fun j => m.map (fun r => r.getD j 0))

/-- Total element count, modelling `data_matrix.size`. -/
def matSize (m : Mat) : Nat := (m.map List.length).sum

/-- The field `AsyncCSVLogger.queue` is created as `queue.Queue()`, whose
default `maxsize=0` means the queue is unbounded: it is never full. -/
def asyncQueueMaxsize : Option Nat := none

/-- `AsyncCSVLogger.push_data`: if the matrix is non-empty, put its transpose
onto the writer queue; `queue.Queue.put` on an unbounded queue appends at the
tail and never blocks or evicts. -/
def pushData (q : List Mat) (m : Mat) : List Mat :=
  if 0 < matSize m then q ++ [transposeMat m] else q

/-- Number of columns of a numpy-style matrix (`shape[1]` of a rectangular
list of rows). -/
def ncols (m : Mat) : Nat := (m.headD []).length

/-- `np.concatenate([a, b], axis=1)` on matrices with equal row count. -/
def hconcat (a b : Mat) : Mat := List.zipWith (· ++ ·) a b

/-- `np.empty((16, 0))` as used in `MultiSourceController.get_aligned_data`. -/
def emptyMat16 : Mat := List.replicate 16 []

/-- The flatten step of `MultiSourceController.get_aligned_data`: merge the
deque of pending chunks of one device into one matrix (`np.concatenate` along
axis 1, or `np.empty((16, 0))` when no chunk is pending). -/
def mergeChunks (chunks : List Mat) : Mat := chunks.foldl hconcat emptyMat16

/-- Python `min` over a nonempty list, as in `min(lengths)`. -/
def pyMin : List Nat → Nat
  | [] => 0
  | x :: xs => xs.foldl min x

/-- The per-device merged pending matrices of one
`MultiSourceController.get_aligned_data` poll: the newly popped chunk of each
device (when any) is appended to its pending deque, and each deque is merged
into one matrix. -/
def alignerMerged (state : List (List Mat)) (inputs : List (Option Mat)) : List Mat :=
  (List.zipWith (fun chunks inp =>
    match inp with
    | some c => chunks ++ [c]
    | none => chunks) state inputs).map mergeChunks

/-- `MultiSourceController.get_aligned_data`: merge pending chunks per device,
compute `min_len = min(lengths)`; when zero, re-buffer every non-empty merged
matrix and return no data; otherwise emit the first `min_len` columns of every
device stacked with `np.vstack` and re-queue the leftover columns of the
faster devices. Returns the emitted matrix (if any) and the new pending
state. -/
def getAlignedData (state : List (List Mat)) (inputs : List (Option Mat)) :
    Option Mat × List (List Mat) :=
  let flat := alignerMerged state inputs
  let minLen := pyMin (flat.map ncols)
  if minLen = 0 then
    (none, flat.map (fun b => if 0 < ncols b then [b] else []))
  else
    (some ((flat.map (fun b => b.map (List.take minLen))).flatten),
      flat.map (fun b =>
        if 0 < ncols (b.map (List.drop minLen)) then [b.map (List.drop minLen)] else []))

/-- A well-formed numpy matrix chunk of one device: 16 rows of equal length. -/
def MatWF (m : Mat) : Prop := m.length = 16 ∧ ∀ r ∈ m, r.length = ncols m

/-- `Replay.PACKET_SIZE` (66 bytes per record). -/
def PACKET_SIZE : Nat := 66

/-- `Replay._total_samples`: `len(self._mmapped_file) // self.PACKET_SIZE`. -/
def totalSamples (fileBytes : List Nat) : Nat := fileBytes.length / PACKET_SIZE

/-- One record `self._mmapped_file[offset : offset + PACKET_SIZE]`. -/
def packetAtOffset (fileBytes : List Nat) (offset : Nat) : List Nat :=
  pySlice fileBytes offset (offset + PACKET_SIZE)

/-- The EMG append loop of `Replay._parse_and_append` with `is_queue=False`:
`emg_dest[i].append(voltage)` on the unbounded cache lists. -/
def processPacketForCache (packet : List Nat) (cache : List (List ℚ)) :
    List (List ℚ) :=
  cache.mapIdx (fun i q => q ++ [packetEMGValue packet i])

/-- The `while offset + self.PACKET_SIZE <= len(self._mmapped_file)` loop of
`Replay.load_all_data`. -/
def cacheLoop (fileBytes : List Nat) (offset : Nat) (cache : List (List ℚ)) :
    List (List ℚ) :=
  if h : offset + PACKET_SIZE ≤ fileBytes.length then
    cacheLoop fileBytes (offset + PACKET_SIZE)
      (processPacketForCache (packetAtOffset fileBytes offset) cache)
  else cache
termination_by fileBytes.length - offset
decreasing_by
  simp only [PACKET_SIZE] at h ⊢
  omega

/-- `Replay.load_all_data`: the cache starts as `num_channels` empty lists and
every full record of the file is processed in order. -/
def loadAllData (channels : Nat) (fileBytes : List Nat) : List (List ℚ) :=
  cacheLoop fileBytes 0 (List.replicate channels [])

/-- `Replay.get_segment` over the state after construction: `loaded` is
`_is_data_loaded`, `total` is `_total_samples` and `cache` is
`_full_emg_data_cache`. Returns `[]` when data is not loaded or the range
check `0 <= start_sample < end_sample <= total` fails, else the per-channel
Python slices `ch_data[start_sample:end_sample]`. -/
def getSegment (loaded : Bool) (total : Nat) (cache : List (List ℚ))
    (startSample endSample : ℤ) : List (List ℚ) :=
  if ¬loaded then []
  else if ¬(0 ≤ startSample ∧ startSample < endSample ∧ endSample ≤ (total : ℤ)) then []
  else cache.map (fun ch => pySlice ch startSample.toNat endSample.toNat)

/-- Static playback configuration of one `Replay._receive_data_loop` run:
the mapped file, the deque capacity `sample_rate * duration`, the channel
count, the byte offsets `_start_sample * PACKET_SIZE` and
`_end_sample * PACKET_SIZE`, and the `isLoop` flag. -/
structure PlaybackConfig where
  fileBytes : List Nat
  queueLen : Nat
  channels : Nat
  startOffset : Nat
  endOffset : Nat
  loops : Bool

/-- Mutable state of `Replay._receive_data_loop`: `current_offset`,
`packet_count`, whether the loop has exited (`halted`; on exit
`Replay._worker_loop` sets `_is_running = False`), and the playback EMG
deques. -/
structure PlaybackState where
  cur : Nat
  cnt : Nat
  halted : Bool
  emg : List (List ℚ)

/-- The EMG append loop of `Replay._parse_and_append` with `is_queue=True`:
append each channel's voltage to its bounded playback deque. -/
def processPacketForPlayback (qlen : Nat) (packet : List Nat)
    (qs : List (List ℚ)) : List (List ℚ) :=
  qs.mapIdx (fun i q => dequePush qlen q (packetEMGValue packet i))

/-- One iteration of the `while not self._stop_event.is_set()` loop in
`Replay._receive_data_loop` (the stop event is never set in the modelled
scenario): at `end_offset` either reset to `start_offset` (loop mode) or
exit; exit as well when no full packet remains in the file; otherwise read
the packet at `current_offset`, advance by `PACKET_SIZE`, process it and
count it. -/
def playbackStep (cfg : PlaybackConfig) (st : PlaybackState) : PlaybackState :=
  if st.halted then st
  else
    let st1 := if cfg.endOffset ≤ st.cur then
        (if cfg.loops then { st with cur := cfg.startOffset, cnt := 0 }
         else { st with halted := true })
      else st
    if st1.halted then st1
    else if cfg.fileBytes.length < st1.cur + PACKET_SIZE then { st1 with halted := true }
    else
      { cur := st1.cur + PACKET_SIZE, cnt := st1.cnt + 1, halted := false,
        emg := processPacketForPlayback cfg.queueLen
          (packetAtOffset cfg.fileBytes st1.cur) st1.emg }

/-- Iterate `playbackStep` (a fuel-bounded run of `_receive_data_loop`). -/
def playbackRun (cfg : PlaybackConfig) : Nat → PlaybackState → PlaybackState
  | 0, st => st
  | fuel + 1, st => playbackRun cfg fuel (playbackStep cfg st)

/-- The range guard of `Replay.play_segment`: the range is accepted when
`0 <= start_sample < end_sample <= total_samples`; an accepted range makes
the worker play from byte offset `start_sample * PACKET_SIZE` up to
`end_sample * PACKET_SIZE`. -/
def playSegmentRange (total : Nat) (startSample endSample : ℤ) :
    Option (Nat × Nat) :=
  if 0 ≤ startSample ∧ startSample < endSample ∧ endSample ≤ (total : ℤ) then
    some (startSample.toNat * PACKET_SIZE, endSample.toNat * PACKET_SIZE)
  else none


lemma getD_range_map {α : Type} (f : Nat → α) (n i : Nat) (d : α) (h : i < n) :
    (((List.range n).map f).getD i d) = f i := by
  rw [List.getD_eq_getElem _ _ (by simpa using h)]
  simp

lemma pySlice_three {α : Type} (l : List α) (d : α) (s : Nat) (h : s + 3 ≤ l.length) :
    pySlice l s (s + 3) = [l.getD s d, l.getD (s + 1) d, l.getD (s + 2) d] := by
  apply List.ext_getElem?
  intro i
  simp only [pySlice]
  rw [List.getElem?_drop]
  by_cases hi : i < 3
  · rw [List.getElem?_take, if_pos (by omega)]
    have hb : s + i < l.length := by omega
    rw [List.getElem?_eq_getElem hb]
    interval_cases i <;>
      simp only [Nat.add_zero, List.getElem?_cons_zero, List.getElem?_cons_succ,
        Option.some.injEq] <;>
      rw [List.getD_eq_getElem _ _ (by omega)]
  · rw [List.getElem?_eq_none (by simp [List.length_take]; omega),
      List.getElem?_eq_none (by simp; omega)]

lemma intFromBytesBE_three (b0 b1 b2 : Nat) :
    intFromBytesBE [b0, b1, b2] = b0 * 65536 + b1 * 256 + b2 := by
  simp [intFromBytesBE, List.foldl]
  ring

lemma lor_shift_byte (a b n : Nat) (hb : b < 2 ^ n) : (a <<< n) ||| b = a * 2 ^ n + b := by
  rw [Nat.shiftLeft_eq, Nat.mul_comm a, ← Nat.mul_add_lt_is_or hb a, Nat.mul_comm]

lemma serialU24_eq (b0 b1 b2 : Nat) (h1 : b1 < 256) (h2 : b2 < 256) :
    serialU24 b0 b1 b2 = b0 * 65536 + b1 * 256 + b2 := by
  have e1 : (b0 <<< 16) ||| (b1 <<< 8) = b0 * 65536 + b1 * 256 := by
    rw [Nat.shiftLeft_eq b1, lor_shift_byte _ _ 16 (by norm_num; omega)]
    norm_num
  have e2 : b0 * 65536 + b1 * 256 = 2 ^ 8 * (b0 * 2 ^ 8 + b1) := by ring
  rw [serialU24, e1, e2, ← Nat.mul_add_lt_is_or h2, ← e2]

lemma and_bit23 (u : Nat) (hu : u < 2 ^ 24) : (u &&& (1 <<< 23) ≠ 0) ↔ 2 ^ 23 ≤ u := by
  have h1 : (1 <<< 23 : Nat) = 2 ^ 23 := by rw [Nat.shiftLeft_eq]; ring
  rw [h1, Nat.and_two_pow, Nat.testBit_to_div_mod]
  norm_num at hu ⊢
  omega

lemma extractVoltage_eq_serialVoltage (u : Nat) (hu : u < 2 ^ 24) :
    extractVoltage u = serialVoltage u := by
  have h24 : ((1 <<< 24 : Nat) : ℤ) = 16777216 := by norm_num [Nat.shiftLeft_eq]
  simp only [extractVoltage, serialVoltage]
  by_cases hs : 2 ^ 23 ≤ u
  · rw [if_pos ((and_bit23 u hu).mpr hs), if_pos (by norm_num at hs; omega), h24]
  · rw [if_neg (fun hc => hs ((and_bit23 u hu).mp hc)),
      if_neg (by norm_num at hs; omega)]



/-- C1: for every decoded packet of every wire format (the serial path
`Serial_Receiver._parse_valid_frame` and the TCP/Replay path
`_process_packet` / `_parse_and_append` via `_extract_voltage`) and every
channel index `i < num_channels`, the i-th EMG value equals the
specification formula: the 3 bytes at offset `3*i` read as a 24-bit
big-endian two's-complement integer `raw`, times `(1.5 / 2^23) * 1000`. -/
theorem C1_emg_decode (p : List Nat) (i channels : Nat)
    (hi : i < 16) (hic : i < channels) (hlen : 48 ≤ p.length)
    (hbytes : ∀ b ∈ p, b < 256) :
    (parseValidFrame p).getD i 0 = specEMGValue p i
    ∧ packetEMGValue p i = specEMGValue p i
    ∧ (processPacketEMG channels p).getD i 0 = specEMGValue p i := by
  have h3 : 3 * i + 3 ≤ p.length := by omega
  have hb0 : p.getD (3 * i) 0 < 256 := by
    rw [List.getD_eq_getElem _ _ (by omega)]
    exact hbytes _ (List.getElem_mem _)
  have hb1 : p.getD (3 * i + 1) 0 < 256 := by
    rw [List.getD_eq_getElem _ _ (by omega)]
    exact hbytes _ (List.getElem_mem _)
  have hb2 : p.getD (3 * i + 2) 0 < 256 := by
    rw [List.getD_eq_getElem _ _ (by omega)]
    exact hbytes _ (List.getElem_mem _)
  have hslice : pySlice p (3 * i) (3 * i + 3) =
      [p.getD (3 * i) 0, p.getD (3 * i + 1) 0, p.getD (3 * i + 2) 0] :=
    pySlice_three p 0 (3 * i) h3
  have hval : intFromBytesBE (pySlice p (3 * i) (3 * i + 3)) =
      p.getD (3 * i) 0 * 65536 + p.getD (3 * i + 1) 0 * 256 + p.getD (3 * i + 2) 0 := by
    rw [hslice, intFromBytesBE_three]
  have hu24 : serialU24 (p.getD (3 * i) 0) (p.getD (3 * i + 1) 0) (p.getD (3 * i + 2) 0) =
      p.getD (3 * i) 0 * 65536 + p.getD (3 * i + 1) 0 * 256 + p.getD (3 * i + 2) 0 :=
    serialU24_eq _ _ _ hb1 hb2
  have hub : p.getD (3 * i) 0 * 65536 + p.getD (3 * i + 1) 0 * 256 + p.getD (3 * i + 2) 0
      < 2 ^ 24 := by
    have h24 : (2 : ℕ) ^ 24 = 16777216 := by norm_num
    omega
  have hspec : specEMGValue p i =
      serialVoltage (intFromBytesBE (pySlice p (3 * i) (3 * i + 3))) := by
    have c1 : (0x800000 : ℕ) = 2 ^ 23 := by norm_num
    have c2 : (0x1000000 : ℤ) = 2 ^ 24 := by norm_num
    simp only [specEMGValue, serialVoltage, LSB, c1, c2]
  have hmc : i * 3 = 3 * i := Nat.mul_comm i 3
  refine ⟨?_, ?_, ?_⟩
  · rw [parseValidFrame, getD_range_map _ 16 i 0 hi, hu24, hspec, hval]
  · rw [packetEMGValue, hmc, hspec]
    exact extractVoltage_eq_serialVoltage _ (hval ▸ hub)
  · rw [processPacketEMG, getD_range_map _ channels i 0 hic, packetEMGValue, hmc, hspec]
    exact extractVoltage_eq_serialVoltage _ (hval ▸ hub)

/-- Witness for C1 at the all-zero 48-byte payload, channel 0. -/
theorem C1_emg_decode_witness :
    (0 : Nat) < 16 ∧ (0 : Nat) < 16 ∧ 48 ≤ (List.replicate 48 0 : List Nat).length
    ∧ (∀ b ∈ (List.replicate 48 0 : List Nat), b < 256)
    ∧ ((parseValidFrame (List.replicate 48 0)).getD 0 0 = specEMGValue (List.replicate 48 0) 0
      ∧ packetEMGValue (List.replicate 48 0) 0 = specEMGValue (List.replicate 48 0) 0
      ∧ (processPacketEMG 16 (List.replicate 48 0)).getD 0 0 = specEMGValue (List.replicate 48 0) 0) :=
  ⟨by decide, by decide, by decide, by decide,
    C1_emg_decode (List.replicate 48 0) 0 16 (by decide) (by decide) (by decide) (by decide)⟩



lemma dequePush_eq_drop {α : Type} (c : Nat) (q : List α) (x : α) :
    dequePush c q x = (q ++ [x]).drop ((q ++ [x]).length - c) := by
  simp only [dequePush]
  split
  · rfl
  · next h =>
    rw [Nat.sub_eq_zero_of_le (by omega), List.drop_zero]

lemma dequePush_length {α : Type} (c : Nat) (q : List α) (x : α) :
    (dequePush c q x).length = min (q.length + 1) c := by
  rw [dequePush_eq_drop]
  simp only [List.length_drop, List.length_append, List.length_cons, List.length_nil]
  omega

lemma foldl_dequePush {α : Type} (c : Nat) (xs q : List α) (hq : q.length ≤ c) :
    List.foldl (dequePush c) q xs = (q ++ xs).drop ((q ++ xs).length - c) := by
  induction xs generalizing q with
  | nil =>
    simp only [List.foldl_nil, List.append_nil]
    rw [Nat.sub_eq_zero_of_le hq, List.drop_zero]
  | cons x xs ih =>
    rw [List.foldl_cons]
    have hlen : (dequePush c q x).length ≤ c := by rw [dequePush_length]; omega
    rw [ih _ hlen, dequePush_eq_drop,
      ← @List.drop_append_of_le_length _ (q ++ [x]) xs ((q ++ [x]).length - c)
        (by simp only [List.length_append, List.length_cons, List.length_nil]; omega),
      List.drop_drop, List.append_assoc, List.singleton_append]
    congr 1
    simp only [List.length_drop, List.length_append, List.length_cons, List.length_nil]
    omega

/-- C2: a bounded channel buffer of capacity `c` (a `deque(maxlen=c)`, the type
of `Serial_Receiver.channel_queues` and `TCP_Receiver.emg_data_queues`) after
`c + k` pushes holds exactly the last `c` pushed values in push order; no
prefix of the pushes ever brings the length above `c`; and a push onto a full
buffer evicts exactly the oldest element. -/
theorem C2_bounded_fifo (c k : Nat) (xs : List ℚ) (hlen : xs.length = c + k)
    (hc : 0 < c) :
    (List.foldl (dequePush c) [] xs).length = c
    ∧ List.foldl (dequePush c) [] xs = xs.drop k
    ∧ (∀ n : Nat, (List.foldl (dequePush c) [] (xs.take n)).length ≤ c)
    ∧ (∀ (q : List ℚ) (x : ℚ), q.length = c → dequePush c q x = q.drop 1 ++ [x]) := by
  have base := foldl_dequePush c xs [] (by simp)
  simp only [List.nil_append] at base
  refine ⟨?_, ?_, ?_, ?_⟩
  · rw [base]
    simp only [List.length_drop]
    omega
  · rw [base]
    congr 1
    omega
  · intro n
    have h := foldl_dequePush c (xs.take n) [] (by simp)
    simp only [List.nil_append] at h
    rw [h]
    simp only [List.length_drop]
    omega
  · intro q x hq
    rw [dequePush_eq_drop]
    have h1 : (q ++ [x]).length - c = 1 := by simp; omega
    rw [h1, List.drop_append_of_le_length (by omega)]

/-- Witness for C2 at capacity 2 with 3 pushes. -/
theorem C2_bounded_fifo_witness :
    ([1, 2, 3] : List ℚ).length = 2 + 1 ∧ 0 < 2
    ∧ ((List.foldl (dequePush 2) [] [1, 2, 3]).length = 2
      ∧ List.foldl (dequePush 2) [] ([1, 2, 3] : List ℚ) = [1, 2, 3].drop 1
      ∧ (∀ n : Nat, (List.foldl (dequePush 2) [] (([1, 2, 3] : List ℚ).take n)).length ≤ 2)
      ∧ (∀ (q : List ℚ) (x : ℚ), q.length = 2 → dequePush 2 q x = q.drop 1 ++ [x])) :=
  ⟨by simp, by decide, C2_bounded_fifo 2 1 [1, 2, 3] (by simp) (by decide)⟩



/-- C6 counterexample: an escape byte followed by 0x55 yields the escape byte
0x1B itself, not the pass-through of 0x55 that the claim states. -/
theorem C6_counterexample :
    unescapeData [0x1B, 0x55] = [0x1B] ∧ unescapeData [0x1B, 0x55] ≠ [0x55] := by
  decide

/-- C6 (amended): inside `_unescape_data`, `0x1B` followed by `0x01`, `0x02`
or `0x03` produces the literal `0x0A`, `0x0D` or `0x1B` respectively; an
escape byte followed by any other byte `b` emits the escape byte `0x1B` and
consumes (drops) `b`. -/
theorem C6_unescape_mapping (b : Nat) (rest : List Nat) :
    unescapeData (ESCAPE_BYTE :: ESCAPE_HEAD :: rest) = FRAME_HEAD :: unescapeData rest
    ∧ unescapeData (ESCAPE_BYTE :: ESCAPE_TAIL :: rest) = FRAME_TAIL :: unescapeData rest
    ∧ unescapeData (ESCAPE_BYTE :: ESCAPE_ESC :: rest) = ESCAPE_BYTE :: unescapeData rest
    ∧ (b ≠ ESCAPE_HEAD → b ≠ ESCAPE_TAIL → b ≠ ESCAPE_ESC →
        unescapeData (ESCAPE_BYTE :: b :: rest) = ESCAPE_BYTE :: unescapeData rest) := by
  refine ⟨by simp [unescapeData], by simp [unescapeData, ESCAPE_TAIL, ESCAPE_HEAD],
    by simp [unescapeData, ESCAPE_ESC, ESCAPE_HEAD, ESCAPE_TAIL], ?_⟩
  intro h1 h2 h3
  simp [unescapeData, h1, h2, h3]

/-- Witness for C6 at the escape pair `0x1B 0x55`. -/
theorem C6_unescape_mapping_witness :
    ((0x55 : Nat) ≠ ESCAPE_HEAD ∧ (0x55 : Nat) ≠ ESCAPE_TAIL ∧ (0x55 : Nat) ≠ ESCAPE_ESC)
    ∧ unescapeData (ESCAPE_BYTE :: 0x55 :: []) = ESCAPE_BYTE :: unescapeData [] :=
  ⟨⟨by decide, by decide, by decide⟩,
    (C6_unescape_mapping 0x55 []).2.2.2 (by decide) (by decide) (by decide)⟩

/-- C7 counterexample: the code maps the raw value `0x800000` to exactly
`-1500` mV, not approximately `-750` mV as the claim states. -/
theorem C7_counterexample :
    extractVoltage 0x800000 = -1500 ∧ serialVoltage 0x800000 = -1500
    ∧ extractVoltage 0x800000 ≠ -750
    ∧ |extractVoltage 0x800000 - -750| = 750 := by
  have h1 : extractVoltage 0x800000 = -1500 := by
    rw [extractVoltage, if_pos (by decide)]
    norm_num [LSB, Nat.shiftLeft_eq]
  have h2 : serialVoltage 0x800000 = -1500 := by
    rw [serialVoltage, if_pos (by decide)]
    norm_num [LSB]
  refine ⟨h1, h2, by rw [h1]; norm_num, by rw [h1]; norm_num⟩

/-- C7 (amended): the EMG decoders map the raw 24-bit value `0x800000` (most
negative) to exactly `-1500` mV and the raw value `0x000001` to exactly
`1500 / 2^23 ≈ +0.000179` mV. -/
theorem C7_voltage_extremes :
    extractVoltage 0x800000 = -1500 ∧ serialVoltage 0x800000 = -1500
    ∧ extractVoltage 0x000001 = 1500 / 2 ^ 23
    ∧ serialVoltage 0x000001 = 1500 / 2 ^ 23 := by
  refine ⟨?_, ?_, ?_, ?_⟩
  · rw [extractVoltage, if_pos (by decide)]
    norm_num [LSB, Nat.shiftLeft_eq]
  · rw [serialVoltage, if_pos (by decide)]
    norm_num [LSB]
  · rw [extractVoltage, if_neg (by decide)]
    norm_num [LSB]
  · rw [serialVoltage, if_neg (by decide)]
    norm_num [LSB]



/-- C8 counterexample: the writer queue is `queue.Queue()` with no `maxsize`
(`asyncQueueMaxsize = none`), so it is never full, and `push_data` onto a
queue holding one batch keeps that oldest batch and appends the new one —
no drop-oldest behavior exists. -/
theorem C8_counterexample :
    asyncQueueMaxsize = none
    ∧ pushData [[[1]]] [[2]] = [[[1]], [[2]]]
    ∧ ([[[1]]] : List Mat).length = 1
    ∧ (pushData [[[1]]] [[2]]).length = 2 := by
  refine ⟨rfl, ?_, rfl, ?_⟩ <;> decide

/-- C8 (amended): the producer-side hand-off `push_data` is a total,
non-blocking enqueue into an unbounded queue: every already-queued batch is
preserved in order (the old queue is a prefix of the new one) and at most one
batch is appended; no batch is ever dropped because the queue has no capacity
bound. -/
theorem C8_push_data (q : List Mat) (m : Mat) :
    asyncQueueMaxsize = none
    ∧ (pushData q m).take q.length = q
    ∧ q.length ≤ (pushData q m).length
    ∧ (pushData q m).length ≤ q.length + 1
    ∧ (0 < matSize m → pushData q m = q ++ [transposeMat m])
    ∧ (matSize m = 0 → pushData q m = q) := by
  refine ⟨rfl, ?_, ?_, ?_, ?_, ?_⟩
  · rw [pushData]
    split
    · rw [List.take_append_of_le_length (le_refl _), List.take_length]
    · exact List.take_length _ ▸ rfl
  · rw [pushData]; split <;> simp
  · rw [pushData]; split <;> simp
  · intro h; rw [pushData, if_pos h]
  · intro h; rw [pushData, if_neg (by omega)]

/-- Witness for C8: pushing a non-empty 1×1 batch onto a queue holding one
batch appends it after the existing batch. -/
theorem C8_push_data_witness :
    0 < matSize [[2]]
    ∧ pushData [[[1]]] [[2]] = [[[1]]] ++ [transposeMat [[2]]] :=
  ⟨by decide, (C8_push_data [[[1]]] [[2]]).2.2.2.2.1 (by decide)⟩



/-- C9: `Serial_Receiver.pop_new_data` returns `None` exactly when channel 0's
queue is empty; otherwise it returns the 16×N matrix whose row i is channel
i's queue in FIFO order, clears all queues, and an immediately repeated call
returns `None`. -/
theorem C9_pop_new_data (qs : Queues) (N : Nat) (h16 : qs.length = 16)
    (hN : ∀ q ∈ qs, q.length = N) :
    ((qs.getD 0 []).isEmpty = true → popNewData qs = (none, qs))
    ∧ ((qs.getD 0 []).isEmpty = false →
        (popNewData qs).1 = some qs
        ∧ ((popNewData qs).1.getD []).length = 16
        ∧ (∀ r ∈ (popNewData qs).1.getD [], r.length = N)
        ∧ (popNewData qs).2 = qs.map (fun _ => ([] : List ℚ))
        ∧ (popNewData (popNewData qs).2).1 = none) := by
  constructor
  · intro h
    rw [popNewData, if_pos h]
  · intro h
    rw [popNewData, if_neg (by simp only [h]; simp)]
    refine ⟨rfl, by simpa using h16, by simpa using hN, rfl, ?_⟩
    cases qs with
    | nil => simp at h16
    | cons a t => simp [popNewData]

/-- Witness for C9 at 16 singleton channel queues. -/
theorem C9_pop_new_data_witness :
    (List.replicate 16 [(0 : ℚ)]).length = 16
    ∧ (∀ q ∈ List.replicate 16 [(0 : ℚ)], q.length = 1)
    ∧ (((List.replicate 16 [(0 : ℚ)]).getD 0 []).isEmpty = false →
        (popNewData (List.replicate 16 [(0 : ℚ)])).1 = some (List.replicate 16 [(0 : ℚ)])
        ∧ (((popNewData (List.replicate 16 [(0 : ℚ)])).1.getD []).length = 16)
        ∧ (∀ r ∈ (popNewData (List.replicate 16 [(0 : ℚ)])).1.getD [], r.length = 1)
        ∧ (popNewData (List.replicate 16 [(0 : ℚ)])).2
            = (List.replicate 16 [(0 : ℚ)]).map (fun _ => ([] : List ℚ))
        ∧ (popNewData (popNewData (List.replicate 16 [(0 : ℚ)])).2).1 = none) :=
  ⟨by decide, by decide,
    (C9_pop_new_data (List.replicate 16 [(0 : ℚ)]) 1 (by decide) (by decide)).2⟩

lemma appendDummyFrame_lengths (qs : Queues) (L : Nat)
    (hL : ∀ q ∈ qs, q.length = L) :
    ∀ q' ∈ appendDummyFrame qs, q'.length = min (L + 1) SERIAL_QUEUE_MAXLEN := by
  intro q' hq'
  simp only [appendDummyFrame, List.mem_map] at hq'
  obtain ⟨q, hq, rfl⟩ := hq'
  rw [dequePush_length, hL q hq]

lemma parseValidFrameQ_lengths (d : List Nat) (qs : Queues) (L : Nat)
    (hL : ∀ q ∈ qs, q.length = L) :
    ∀ q' ∈ parseValidFrameQ d qs, q'.length = min (L + 1) SERIAL_QUEUE_MAXLEN := by
  intro q' hq'
  simp only [parseValidFrameQ, List.mem_mapIdx] at hq'
  obtain ⟨i, hi, rfl⟩ := hq'
  rw [dequePush_length, hL _ (List.getElem_mem hi)]

lemma handleFrame_lengths (payload : List Nat) (qs : Queues) (L : Nat)
    (hL : ∀ q ∈ qs, q.length = L) :
    ∀ q' ∈ handleFrame payload qs, q'.length = min (L + 1) SERIAL_QUEUE_MAXLEN := by
  rw [handleFrame]
  split
  · exact parseValidFrameQ_lengths _ _ _ hL
  · exact appendDummyFrame_lengths _ _ hL

lemma processBuffer_lengths (buffer : List Nat) (qs : Queues) :
    ∀ L, (∀ q ∈ qs, q.length = L) →
      ∃ M, ∀ q' ∈ (processBuffer buffer qs).2, q'.length = M := by
  induction buffer, qs using processBuffer.induct with
  | case1 buffer qs h1 hh =>
    intro L hL
    rw [processBuffer]
    simp only [dif_pos h1, hh]
    exact ⟨L, hL⟩
  | case2 buffer qs h1 headIdx hh buf1 hTail h2 =>
    intro L hL
    rw [processBuffer]
    simp only [dif_pos h1, hh, hTail, if_pos h2]
    exact ⟨L, hL⟩
  | case3 buffer qs h1 headIdx hh buf1 hTail h2 =>
    intro L hL
    rw [processBuffer]
    simp only [dif_pos h1, hh, hTail, if_neg h2]
    exact ⟨L, hL⟩
  | case4 buffer qs h1 headIdx hh buf1 j hTail tailIdx rest ih =>
    intro L hL
    rw [processBuffer]
    simp only [dif_pos h1, hh, hTail]
    exact ih _ (handleFrame_lengths _ _ _ hL)
  | case5 buffer qs h1 =>
    intro L hL
    rw [processBuffer]
    simp only [dif_neg h1]
    exact ⟨L, hL⟩



/-- C5: a serial payload whose unescaped length is not 48 is a decode failure
and `_append_dummy_frame` pushes a `0.0` sample onto every one of the 16
channel queues (no silent drop); consequently processing any byte stream
through `_process_buffer` keeps all channel queues at one common length. -/
theorem C5_bad_payload_dummy (payload : List Nat) (qs : Queues) (L : Nat)
    (h16 : qs.length = 16)
    (hbad : (unescapeData payload).length ≠ 48)
    (hL : ∀ q ∈ qs, q.length = L) :
    handleFrame payload qs = appendDummyFrame qs
    ∧ appendDummyFrame qs = qs.map (fun q => dequePush SERIAL_QUEUE_MAXLEN q 0)
    ∧ (handleFrame payload qs).length = 16
    ∧ (∀ q' ∈ handleFrame payload qs, q'.length = min (L + 1) SERIAL_QUEUE_MAXLEN)
    ∧ (∀ buffer : List Nat, ∃ M, ∀ q' ∈ (processBuffer buffer qs).2, q'.length = M) := by
  have h1 : handleFrame payload qs = appendDummyFrame qs := by
    rw [handleFrame, if_neg hbad]
  refine ⟨h1, rfl, ?_, ?_, ?_⟩
  · rw [h1, appendDummyFrame, List.length_map, h16]
  · exact handleFrame_lengths payload qs L hL
  · intro buffer
    exact processBuffer_lengths buffer qs L hL

/-- Witness for C5 at an empty payload over 16 empty channel queues. -/
theorem C5_bad_payload_dummy_witness :
    (List.replicate 16 ([] : List ℚ)).length = 16
    ∧ (unescapeData []).length ≠ 48
    ∧ (∀ q ∈ List.replicate 16 ([] : List ℚ), q.length = 0)
    ∧ handleFrame [] (List.replicate 16 ([] : List ℚ))
        = appendDummyFrame (List.replicate 16 ([] : List ℚ)) :=
  ⟨by decide, by decide, by decide,
    (C5_bad_payload_dummy [] (List.replicate 16 ([] : List ℚ)) 0 (by decide) (by decide)
      (by decide)).1⟩



lemma processPacketForCache_length (packet : List Nat) (cache : List (List ℚ)) :
    (processPacketForCache packet cache).length = cache.length := by
  simp [processPacketForCache]

lemma processPacketForCache_getD (packet : List Nat) (cache : List (List ℚ))
    (i : Nat) (hi : i < cache.length) :
    (processPacketForCache packet cache).getD i []
      = cache.getD i [] ++ [packetEMGValue packet i] := by
  rw [List.getD_eq_getElem _ _ (by simpa [processPacketForCache] using hi),
    List.getD_eq_getElem _ _ hi]
  simp [processPacketForCache]

lemma cacheLoop_length (fileBytes : List Nat) (offset : Nat) (cache : List (List ℚ)) :
    (cacheLoop fileBytes offset cache).length = cache.length := by
  induction offset, cache using cacheLoop.induct fileBytes with
  | case1 offset cache h ih =>
    rw [cacheLoop]
    simp only [dif_pos h]
    rw [ih, processPacketForCache_length]
  | case2 offset cache h =>
    rw [cacheLoop]
    simp only [dif_neg h]

lemma cacheLoop_row_length (fileBytes : List Nat) (offset : Nat)
    (cache : List (List ℚ)) :
    ∀ i < cache.length,
      ((cacheLoop fileBytes offset cache).getD i []).length
        = (cache.getD i []).length + (fileBytes.length - offset) / PACKET_SIZE := by
  induction offset, cache using cacheLoop.induct fileBytes with
  | case1 offset cache h ih =>
    intro i hi
    rw [cacheLoop]
    simp only [dif_pos h]
    rw [ih i (by rwa [processPacketForCache_length]),
      processPacketForCache_getD _ _ _ hi]
    simp only [List.length_append, List.length_cons, List.length_nil, PACKET_SIZE] at h ⊢
    omega
  | case2 offset cache h =>
    intro i hi
    rw [cacheLoop]
    simp only [dif_neg h]
    simp only [PACKET_SIZE] at h ⊢
    omega

lemma loadAllData_length (channels : Nat) (fileBytes : List Nat) :
    (loadAllData channels fileBytes).length = channels := by
  rw [loadAllData, cacheLoop_length, List.length_replicate]

lemma loadAllData_row_length (channels : Nat) (fileBytes : List Nat) :
    ∀ i < channels,
      ((loadAllData channels fileBytes).getD i []).length = totalSamples fileBytes := by
  intro i hi
  rw [loadAllData, cacheLoop_row_length fileBytes 0 _ i (by simpa using hi)]
  simp [totalSamples]

/-- C10: `Replay.get_segment` is total (the embedding is a pure function): it
returns `[]` when `load_all_data` has not completed or when the range check
`0 ≤ start < end ≤ total_samples` fails (the Python method mutates nothing);
for a valid range after loading it returns `num_channels` lists, each the
slice `ch_data[start:end]` of the cached dataset of length `end - start`. -/
theorem C10_get_segment (channels : Nat) (fileBytes : List Nat)
    (startSample endSample : ℤ)
    (hch : 0 < channels) :
    getSegment false (totalSamples fileBytes) (loadAllData channels fileBytes)
        startSample endSample = []
    ∧ (¬(0 ≤ startSample ∧ startSample < endSample
          ∧ endSample ≤ (totalSamples fileBytes : ℤ)) →
        getSegment true (totalSamples fileBytes) (loadAllData channels fileBytes)
          startSample endSample = [])
    ∧ ((0 ≤ startSample ∧ startSample < endSample
          ∧ endSample ≤ (totalSamples fileBytes : ℤ)) →
        (getSegment true (totalSamples fileBytes) (loadAllData channels fileBytes)
            startSample endSample).length = channels
        ∧ (∀ i < channels,
            (getSegment true (totalSamples fileBytes) (loadAllData channels fileBytes)
                startSample endSample).getD i []
              = pySlice ((loadAllData channels fileBytes).getD i [])
                  startSample.toNat endSample.toNat)
        ∧ (∀ r ∈ getSegment true (totalSamples fileBytes) (loadAllData channels fileBytes)
              startSample endSample,
            r.length = (endSample - startSample).toNat)) := by
  refine ⟨by rw [getSegment]; simp, fun hbad => by rw [getSegment]; simp [hbad], fun hok => ?_⟩
  have hcache := loadAllData_length channels fileBytes
  have hrow := loadAllData_row_length channels fileBytes
  have hseg : getSegment true (totalSamples fileBytes) (loadAllData channels fileBytes)
      startSample endSample
      = (loadAllData channels fileBytes).map
          (fun ch => pySlice ch startSample.toNat endSample.toNat) := by
    rw [getSegment]
    simp [hok]
  refine ⟨by rw [hseg, List.length_map, hcache], ?_, ?_⟩
  · intro i hi
    rw [hseg, List.getD_eq_getElem _ _ (by simp [hcache]; omega),
      List.getD_eq_getElem _ _ (by omega : i < (loadAllData channels fileBytes).length)]
    simp
  · intro r hr
    rw [hseg, List.mem_map] at hr
    obtain ⟨ch, hch2, rfl⟩ := hr
    obtain ⟨i, hi, hgi⟩ := List.mem_iff_getElem.mp hch2
    have hlen : ch.length = totalSamples fileBytes := by
      rw [← hgi, ← List.getD_eq_getElem _ _ hi]
      exact hrow i (by omega)
    simp only [pySlice, List.length_drop, List.length_take, hlen]
    omega

/-- Witness for C10 on a one-record file with 2 channels and the range `[0, 1)`. -/
theorem C10_get_segment_witness :
    0 < 2
    ∧ ((0 : ℤ) ≤ 0 ∧ (0 : ℤ) < 1
        ∧ (1 : ℤ) ≤ (totalSamples (List.replicate 66 0) : ℤ))
    ∧ ((0 ≤ (0 : ℤ) ∧ (0 : ℤ) < 1
          ∧ (1 : ℤ) ≤ (totalSamples (List.replicate 66 0) : ℤ)) →
        (getSegment true (totalSamples (List.replicate 66 0))
            (loadAllData 2 (List.replicate 66 0)) 0 1).length = 2
        ∧ (∀ i < 2,
            (getSegment true (totalSamples (List.replicate 66 0))
                (loadAllData 2 (List.replicate 66 0)) 0 1).getD i []
              = pySlice ((loadAllData 2 (List.replicate 66 0)).getD i [])
                  (0 : ℤ).toNat (1 : ℤ).toNat)
        ∧ (∀ r ∈ getSegment true (totalSamples (List.replicate 66 0))
              (loadAllData 2 (List.replicate 66 0)) 0 1,
            r.length = ((1 : ℤ) - 0).toNat)) :=
  ⟨by decide, by simp [totalSamples, PACKET_SIZE],
    (C10_get_segment 2 (List.replicate 66 0) 0 1 (by decide)).2.2⟩



lemma emptyMat16_WF : MatWF emptyMat16 := by
  constructor
  · simp [emptyMat16]
  · intro r hr
    rw [List.eq_of_mem_replicate hr]
    simp [ncols, emptyMat16]

lemma ncols_of_cons (r : List ℚ) (m : List (List ℚ)) : ncols (r :: m) = r.length := rfl

lemma hconcat_WF (a b : Mat) (ha : MatWF a) (hb : MatWF b) :
    MatWF (hconcat a b) ∧ ncols (hconcat a b) = ncols a + ncols b := by
  have hla := ha.1
  have hlb := hb.1
  have hlen : (hconcat a b).length = 16 := by
    simp [hconcat, hla, hlb]
  have hrow : ∀ r ∈ hconcat a b, r.length = ncols a + ncols b := by
    intro r hr
    obtain ⟨i, hi, hgi⟩ := List.mem_iff_getElem.mp hr
    simp only [hconcat] at hgi
    rw [List.getElem_zipWith] at hgi
    rw [← hgi, List.length_append,
      ha.2 _ (List.getElem_mem _), hb.2 _ (List.getElem_mem _)]
  have hnc : ncols (hconcat a b) = ncols a + ncols b := by
    have h0 : 0 < (hconcat a b).length := by omega
    cases hc : hconcat a b with
    | nil => rw [hc] at h0; simp at h0
    | cons r t =>
      rw [ncols_of_cons]
      exact hrow r (by rw [hc]; exact List.mem_cons_self _ _)
  exact ⟨⟨hlen, fun r hr => by rw [hrow r hr, hnc]⟩, hnc⟩

lemma foldl_hconcat_WF (chunks : List Mat) (acc : Mat) (hacc : MatWF acc)
    (h : ∀ m ∈ chunks, MatWF m) : MatWF (chunks.foldl hconcat acc) := by
  induction chunks generalizing acc with
  | nil => exact hacc
  | cons c cs ih =>
    rw [List.foldl_cons]
    exact ih _ (hconcat_WF acc c hacc (h c (List.mem_cons_self _ _))).1
      (fun m hm => h m (List.mem_cons_of_mem _ hm))

lemma mergeChunks_WF (chunks : List Mat) (h : ∀ m ∈ chunks, MatWF m) :
    MatWF (mergeChunks chunks) :=
  foldl_hconcat_WF chunks emptyMat16 emptyMat16_WF h

lemma zipWith_append_replicate_nil (b : Mat) :
    List.zipWith (· ++ ·) (List.replicate b.length ([] : List ℚ)) b = b := by
  induction b with
  | nil => rfl
  | cons r t ih => simp [List.replicate_succ, ih]

lemma mergeChunks_singleton (b : Mat) (hb : b.length = 16) : mergeChunks [b] = b := by
  rw [mergeChunks, List.foldl_cons, List.foldl_nil, hconcat, emptyMat16, ← hb,
    zipWith_append_replicate_nil]

lemma eq_empty_of_ncols_zero (b : Mat) (hWF : MatWF b) (h0 : ncols b = 0) :
    b = emptyMat16 := by
  rw [emptyMat16, List.eq_replicate_iff]
  exact ⟨hWF.1, fun r hr => List.length_eq_zero.mp (by rw [hWF.2 r hr, h0])⟩

lemma foldl_min_le_init (as : List Nat) (a : Nat) : as.foldl min a ≤ a := by
  induction as generalizing a with
  | nil => exact le_refl a
  | cons b bs ih =>
    rw [List.foldl_cons]
    exact le_trans (ih _) (min_le_left a b)

lemma pyMin_le (l : List Nat) (x : Nat) (hx : x ∈ l) : pyMin l ≤ x := by
  cases l with
  | nil => simp at hx
  | cons a as =>
    rw [pyMin]
    rcases List.mem_cons.mp hx with rfl | hmem
    · exact foldl_min_le_init as x
    · clear hx
      induction as generalizing a with
      | nil => simp at hmem
      | cons b bs ih =>
        rw [List.foldl_cons]
        rcases List.mem_cons.mp hmem with rfl | hmem2
        · exact le_trans (foldl_min_le_init bs (min a x)) (min_le_right a x)
        · exact ih _ hmem2

lemma alignerMerged_WF (state : List (List Mat)) (inputs : List (Option Mat))
    (hWFs : ∀ chunks ∈ state, ∀ m ∈ chunks, MatWF m)
    (hWFi : ∀ inp ∈ inputs, ∀ m : Mat, inp = some m → MatWF m) :
    ∀ b ∈ alignerMerged state inputs, MatWF b := by
  intro b hb
  simp only [alignerMerged, List.mem_map] at hb
  obtain ⟨chunks, hchunks, rfl⟩ := hb
  apply mergeChunks_WF
  intro m hm
  obtain ⟨i, hilen, hgi⟩ := List.mem_iff_getElem.mp hchunks
  rw [List.getElem_zipWith] at hgi
  have hi1 : i < state.length := by simp at hilen; omega
  have hi2 : i < inputs.length := by simp at hilen; omega
  have hstate : state[i] ∈ state := List.getElem_mem _
  have hinp : inputs[i] ∈ inputs := List.getElem_mem _
  rcases hcase : inputs[i] with _ | c
  · rw [hcase] at hgi
    rw [← hgi] at hm
    exact hWFs _ hstate m hm
  · rw [hcase] at hgi
    rw [← hgi] at hm
    rcases List.mem_append.mp hm with hm1 | hm2
    · exact hWFs _ hstate m hm1
    · rw [List.mem_singleton.mp hm2]
      exact hWFi _ hinp c hcase

lemma alignerMerged_length (state : List (List Mat)) (inputs : List (Option Mat))
    (hlen : state.length = inputs.length) :
    (alignerMerged state inputs).length = state.length := by
  simp [alignerMerged, hlen]



lemma MatWF_map_drop (b : Mat) (hWF : MatWF b) (n : Nat) :
    MatWF (b.map (List.drop n)) ∧ ncols (b.map (List.drop n)) = ncols b - n := by
  have hnc : ncols (b.map (List.drop n)) = ncols b - n := by
    cases b with
    | nil =>
      have := hWF.1
      simp at this
    | cons r0 t =>
      simp only [List.map_cons, ncols_of_cons, List.length_drop]
  refine ⟨⟨by simp [hWF.1], ?_⟩, hnc⟩
  intro r hr
  rw [List.mem_map] at hr
  obtain ⟨row, hrow, rfl⟩ := hr
  rw [hnc, List.length_drop, hWF.2 row hrow]

/-- C3: one `MultiSourceController.get_aligned_data` poll over per-device
pending matrices: with `min_len` the minimum merged column count over all
devices, a zero `min_len` returns no data (not an error) and leaves every
pending sample queued; a positive `min_len` emits the first `min_len` columns
of every device stacked row-major (16 rows per device) into one matrix whose
every row has exactly `min_len` columns, and re-queues exactly the remaining
columns of the faster devices. -/
theorem C3_aligned_poll (state : List (List Mat)) (inputs : List (Option Mat))
    (hlen : state.length = inputs.length)
    (hWFs : ∀ chunks ∈ state, ∀ m ∈ chunks, MatWF m)
    (hWFi : ∀ inp ∈ inputs, ∀ m : Mat, inp = some m → MatWF m) :
    (pyMin ((alignerMerged state inputs).map ncols) = 0 →
        (getAlignedData state inputs).1 = none
        ∧ ((getAlignedData state inputs).2).map mergeChunks
            = alignerMerged state inputs)
    ∧ (0 < pyMin ((alignerMerged state inputs).map ncols) →
        (getAlignedData state inputs).1
            = some (((alignerMerged state inputs).map
                (fun b => b.map
                  (List.take (pyMin ((alignerMerged state inputs).map ncols))))).flatten)
        ∧ (∀ r ∈ (getAlignedData state inputs).1.getD [],
            r.length = pyMin ((alignerMerged state inputs).map ncols))
        ∧ ((getAlignedData state inputs).1.getD []).length = 16 * state.length
        ∧ ((getAlignedData state inputs).2).map mergeChunks
            = (alignerMerged state inputs).map
                (fun b => b.map
                  (List.drop (pyMin ((alignerMerged state inputs).map ncols))))) := by
  have hWFb : ∀ b ∈ alignerMerged state inputs, MatWF b :=
    alignerMerged_WF state inputs hWFs hWFi
  have hmin_le : ∀ b ∈ alignerMerged state inputs,
      pyMin ((alignerMerged state inputs).map ncols) ≤ ncols b :=
    fun b hb => pyMin_le _ _ (List.mem_map_of_mem _ hb)
  constructor
  · intro h0
    have hga : getAlignedData state inputs
        = (none, (alignerMerged state inputs).map
            (fun b => if 0 < ncols b then [b] else [])) := by
      simp only [getAlignedData]
      rw [if_pos h0]
    rw [hga]
    refine ⟨rfl, ?_⟩
    rw [List.map_map]
    have hpt : ∀ b ∈ alignerMerged state inputs,
        (mergeChunks ∘ fun b => if 0 < ncols b then [b] else []) b = id b := by
      intro b hb
      simp only [Function.comp_apply, id_eq]
      by_cases hnc : 0 < ncols b
      · rw [if_pos hnc, mergeChunks_singleton b (hWFb b hb).1]
      · rw [if_neg hnc]
        exact (eq_empty_of_ncols_zero b (hWFb b hb) (by omega)).symm
    rw [List.map_congr_left hpt, List.map_id]
  · intro hpos
    have hga : getAlignedData state inputs
        = (some (((alignerMerged state inputs).map
              (fun b => b.map
                (List.take (pyMin ((alignerMerged state inputs).map ncols))))).flatten),
           (alignerMerged state inputs).map
            (fun b => if 0 < ncols (b.map
                (List.drop (pyMin ((alignerMerged state inputs).map ncols))))
              then [b.map (List.drop (pyMin ((alignerMerged state inputs).map ncols)))]
              else [])) := by
      simp only [getAlignedData]
      rw [if_neg (by omega : ¬ pyMin ((alignerMerged state inputs).map ncols) = 0)]
    refine ⟨by rw [hga], ?_, ?_, ?_⟩
    · intro r hr
      rw [hga] at hr
      simp only [Option.getD_some] at hr
      rw [List.mem_flatten] at hr
      obtain ⟨l, hl, hrl⟩ := hr
      rw [List.mem_map] at hl
      obtain ⟨b, hb, rfl⟩ := hl
      rw [List.mem_map] at hrl
      obtain ⟨row, hrow, rfl⟩ := hrl
      rw [List.length_take, (hWFb b hb).2 row hrow]
      exact min_eq_left (hmin_le b hb)
    · rw [hga]
      simp only [Option.getD_some, List.length_flatten, List.map_map]
      have hpt : ∀ b ∈ alignerMerged state inputs,
          (List.length ∘ fun b => b.map
            (List.take (pyMin ((alignerMerged state inputs).map ncols)))) b
            = (fun _ => 16) b := by
        intro b hb
        simp [(hWFb b hb).1]
      rw [List.map_congr_left hpt, List.map_const',
        List.sum_replicate, smul_eq_mul,
        alignerMerged_length state inputs hlen, Nat.mul_comm]
    · rw [hga]
      rw [List.map_map]
      apply List.map_congr_left
      intro b hb
      simp only [Function.comp_apply]
      have hWFd := MatWF_map_drop b (hWFb b hb)
        (pyMin ((alignerMerged state inputs).map ncols))
      by_cases hnc : 0 < ncols (b.map
          (List.drop (pyMin ((alignerMerged state inputs).map ncols))))
      · rw [if_pos hnc, mergeChunks_singleton _ (hWFd.1).1]
      · rw [if_neg hnc]
        exact (eq_empty_of_ncols_zero _ hWFd.1 (by omega)).symm

/-- Witness for C3: device A with a 16×10 pending matrix and device B with a
16×7 pending matrix, no new pops; the poll emits a 32-row matrix whose rows
have 7 columns each. -/
theorem C3_aligned_poll_witness :
    0 < pyMin ((alignerMerged
        [[List.replicate 16 (List.replicate 10 (0 : ℚ))],
         [List.replicate 16 (List.replicate 7 (0 : ℚ))]] [none, none]).map ncols)
    ∧ ((getAlignedData
        [[List.replicate 16 (List.replicate 10 (0 : ℚ))],
         [List.replicate 16 (List.replicate 7 (0 : ℚ))]] [none, none]).1.getD []).length
        = 16 * ([[List.replicate 16 (List.replicate 10 (0 : ℚ))],
            [List.replicate 16 (List.replicate 7 (0 : ℚ))]] : List (List Mat)).length :=
  ⟨by decide,
    ((C3_aligned_poll
      [[List.replicate 16 (List.replicate 10 (0 : ℚ))],
       [List.replicate 16 (List.replicate 7 (0 : ℚ))]] [none, none]
      (by decide)
      (by
        intro chunks hc m hm
        simp only [List.mem_cons, List.not_mem_nil, or_false] at hc
        rcases hc with rfl | rfl <;>
          (simp only [List.mem_cons, List.not_mem_nil, or_false] at hm; subst hm) <;>
          exact ⟨by decide, fun r hr => by rw [List.eq_of_mem_replicate hr]; decide⟩)
      (by
        intro inp hinp m hm
        simp only [List.mem_cons, List.not_mem_nil, or_false] at hinp
        rcases hinp with rfl | rfl <;> cases hm)).2 (by decide)).2.2.1⟩



lemma playbackStep_halted (cfg : PlaybackConfig) (st : PlaybackState)
    (h : st.halted = true) : playbackStep cfg st = st := by
  rw [playbackStep, if_pos h]

lemma playbackRun_halted (cfg : PlaybackConfig) (fuel : Nat) (st : PlaybackState)
    (h : st.halted = true) : playbackRun cfg fuel st = st := by
  induction fuel with
  | zero => rfl
  | succ f ih =>
    rw [playbackRun, playbackStep_halted cfg st h, ih]

lemma processPacketForPlayback_length (qlen : Nat) (packet : List Nat)
    (qs : List (List ℚ)) :
    (processPacketForPlayback qlen packet qs).length = qs.length := by
  simp [processPacketForPlayback]

lemma processPacketForPlayback_getD (qlen : Nat) (packet : List Nat)
    (qs : List (List ℚ)) (i : Nat) (hi : i < qs.length) :
    (processPacketForPlayback qlen packet qs).getD i []
      = dequePush qlen (qs.getD i []) (packetEMGValue packet i) := by
  rw [List.getD_eq_getElem _ _ (by simpa [processPacketForPlayback] using hi),
    List.getD_eq_getElem _ _ hi]
  simp [processPacketForPlayback]

lemma foldl_playback_range (qlen : Nat) (fileBytes : List Nat) (n : Nat) :
    ∀ (c i : Nat) (qs : List (List ℚ)), i < qs.length →
    ((List.range' c n).foldl
        (fun acc k => processPacketForPlayback qlen
          (packetAtOffset fileBytes (k * PACKET_SIZE)) acc) qs).getD i []
      = ((List.range' c n).map
          (fun k => packetEMGValue (packetAtOffset fileBytes (k * PACKET_SIZE)) i)).foldl
          (dequePush qlen) (qs.getD i []) := by
  induction n with
  | zero => intro c i qs hi; rfl
  | succ m ih =>
    intro c i qs hi
    rw [List.range'_succ, List.foldl_cons, List.map_cons, List.foldl_cons,
      ih _ _ _ (by rwa [processPacketForPlayback_length]),
      processPacketForPlayback_getD _ _ _ _ hi]

lemma playbackRun_nonloop (cfg : PlaybackConfig) (hloop : cfg.loops = false)
    (e : Nat) (hend : cfg.endOffset = e * PACKET_SIZE)
    (hfile : e * PACKET_SIZE ≤ cfg.fileBytes.length) :
    ∀ (n c : Nat) (st : PlaybackState), n = e - c → st.halted = false →
      st.cur = c * PACKET_SIZE → c ≤ e →
      ∀ fuel, n < fuel →
        playbackRun cfg fuel st
          = { cur := cfg.endOffset,
              cnt := st.cnt + n,
              halted := true,
              emg := (List.range' c n).foldl
                (fun acc k => processPacketForPlayback cfg.queueLen
                  (packetAtOffset cfg.fileBytes (k * PACKET_SIZE)) acc) st.emg } := by
  intro n
  induction n with
  | zero =>
    intro c st hn hh hcur hce fuel hfuel
    have hce' : c = e := by omega
    subst hce'
    cases fuel with
    | zero => omega
    | succ f =>
      rw [playbackRun]
      have hnh : ¬ st.halted = true := by simp [hh]
      have hc1 : cfg.endOffset ≤ st.cur := by rw [hend, hcur]
      have hstep : playbackStep cfg st = { st with halted := true } := by
        rw [playbackStep, if_neg hnh, if_pos hc1, hloop]
        simp
      rw [hstep, playbackRun_halted _ _ _ rfl]
      simp only [List.range']
      rw [List.foldl_nil]
      cases st with
      | mk cur cnt halted emg =>
        simp only at hcur ⊢
        rw [hcur, hend]
        simp
  | succ m ih =>
    intro c st hn hh hcur hce fuel hfuel
    cases fuel with
    | zero => omega
    | succ f =>
      have hcl : c < e := by omega
      rw [playbackRun]
      have hnh : ¬ st.halted = true := by simp [hh]
      have hc1 : ¬ cfg.endOffset ≤ st.cur := by
        rw [hend, hcur]
        simp only [PACKET_SIZE]
        omega
      have hc2 : ¬ cfg.fileBytes.length < st.cur + PACKET_SIZE := by
        rw [hcur]
        simp only [PACKET_SIZE] at hfile ⊢
        omega
      have hstep : playbackStep cfg st
          = { cur := (c + 1) * PACKET_SIZE, cnt := st.cnt + 1, halted := false,
              emg := processPacketForPlayback cfg.queueLen
                (packetAtOffset cfg.fileBytes (c * PACKET_SIZE)) st.emg } := by
        rw [playbackStep, if_neg hnh, if_neg hc1, if_neg hnh, if_neg hc2, hcur]
        have harith : c * PACKET_SIZE + PACKET_SIZE = (c + 1) * PACKET_SIZE := by ring
        rw [harith]
      rw [hstep]
      rw [ih (c + 1) _ (by omega) rfl rfl (by omega) f (by omega)]
      rw [List.range'_succ, List.foldl_cons]
      simp only
      congr 1
      omega

lemma playbackStep_loop_reset (cfg : PlaybackConfig) (st : PlaybackState)
    (hloop : cfg.loops = true) (hh : st.halted = false) (hcur : cfg.endOffset ≤ st.cur)
    (hEOF : ¬ cfg.fileBytes.length < cfg.startOffset + PACKET_SIZE) :
    playbackStep cfg st
      = { cur := cfg.startOffset + PACKET_SIZE, cnt := 1, halted := false,
          emg := processPacketForPlayback cfg.queueLen
            (packetAtOffset cfg.fileBytes cfg.startOffset) st.emg } := by
  have hnh : ¬ st.halted = true := by simp [hh]
  rw [playbackStep, if_neg hnh, if_pos hcur, hloop]
  simp [hh, hEOF]

/-- C4: `play_segment(100, 200)` on a file with at least 200 records: the
range guard accepts and sets the byte range `[100*66, 200*66)`; with loop
mode off the playback worker pushes exactly 100 samples (records 100..199 in
order) into every EMG channel deque and then exits its loop (`halted`, after
which `_worker_loop` marks the engine not-running); with `isLoop=True`, an
iteration starting at `end_sample` resets to `start_sample` and immediately
continues playing instead of stopping. -/
theorem C4_play_segment (fileBytes : List Nat) (qlen fuel : Nat)
    (h200 : 200 * PACKET_SIZE ≤ fileBytes.length)
    (hq : 100 ≤ qlen) (hfuel : 100 < fuel) :
    playSegmentRange (totalSamples fileBytes) 100 200
        = some (100 * PACKET_SIZE, 200 * PACKET_SIZE)
    ∧ (playbackRun ⟨fileBytes, qlen, 16, 100 * PACKET_SIZE, 200 * PACKET_SIZE, false⟩
          fuel ⟨100 * PACKET_SIZE, 0, false, List.replicate 16 []⟩).halted = true
    ∧ (∀ i < 16,
        (playbackRun ⟨fileBytes, qlen, 16, 100 * PACKET_SIZE, 200 * PACKET_SIZE, false⟩
            fuel ⟨100 * PACKET_SIZE, 0, false, List.replicate 16 []⟩).emg.getD i []
          = (List.range' 100 100).map
              (fun k => packetEMGValue (packetAtOffset fileBytes (k * PACKET_SIZE)) i))
    ∧ (∀ i < 16,
        ((playbackRun ⟨fileBytes, qlen, 16, 100 * PACKET_SIZE, 200 * PACKET_SIZE, false⟩
            fuel ⟨100 * PACKET_SIZE, 0, false, List.replicate 16 []⟩).emg.getD i []).length
          = 100)
    ∧ (∀ st : PlaybackState, st.halted = false → st.cur = 200 * PACKET_SIZE →
        playbackStep ⟨fileBytes, qlen, 16, 100 * PACKET_SIZE, 200 * PACKET_SIZE, true⟩ st
          = ⟨100 * PACKET_SIZE + PACKET_SIZE, 1, false,
             processPacketForPlayback qlen
               (packetAtOffset fileBytes (100 * PACKET_SIZE)) st.emg⟩) := by
  have htot : 200 ≤ totalSamples fileBytes := by
    simp only [totalSamples, PACKET_SIZE] at h200 ⊢
    omega
  have hrun := playbackRun_nonloop
    ⟨fileBytes, qlen, 16, 100 * PACKET_SIZE, 200 * PACKET_SIZE, false⟩ rfl
    200 rfl h200 100 100 ⟨100 * PACKET_SIZE, 0, false, List.replicate 16 []⟩
    (by omega) rfl rfl (by omega) fuel hfuel
  have hrow : ∀ i, i < 16 →
      (playbackRun ⟨fileBytes, qlen, 16, 100 * PACKET_SIZE, 200 * PACKET_SIZE, false⟩
          fuel ⟨100 * PACKET_SIZE, 0, false, List.replicate 16 []⟩).emg.getD i []
        = (List.range' 100 100).map
            (fun k => packetEMGValue (packetAtOffset fileBytes (k * PACKET_SIZE)) i) := by
    intro i hi
    rw [hrun]
    simp only
    rw [foldl_playback_range _ _ _ _ _ _ (by simp; omega)]
    have hemp : (List.replicate 16 ([] : List ℚ)).getD i [] = [] := by
      rw [List.getD_eq_getElem _ _ (by simp; omega), List.getElem_replicate]
    rw [hemp]
    rw [foldl_dequePush _ _ _ (by simp)]
    rw [List.nil_append]
    rw [Nat.sub_eq_zero_of_le (by simp; omega), List.drop_zero]
  refine ⟨?_, ?_, hrow, ?_, ?_⟩
  · rw [playSegmentRange, if_pos (by constructor; omega; constructor; omega; exact_mod_cast htot)]
    rfl
  · rw [hrun]
  · intro i hi
    rw [hrow i hi, List.length_map, List.length_range']
  · intro st hh hcur
    exact playbackStep_loop_reset _ st rfl hh (le_of_eq hcur.symm)
      (by
        show ¬ fileBytes.length < 100 * PACKET_SIZE + PACKET_SIZE
        simp only [PACKET_SIZE] at h200 ⊢
        omega)

/-- Witness for C4 on an all-zero 200-record file with capacity 2000 and
fuel 101. -/
theorem C4_play_segment_witness :
    200 * PACKET_SIZE ≤ (List.replicate 13200 0 : List Nat).length
    ∧ 100 ≤ 2000 ∧ 100 < 101
    ∧ (playbackRun
          ⟨List.replicate 13200 0, 2000, 16, 100 * PACKET_SIZE, 200 * PACKET_SIZE, false⟩
          101 ⟨100 * PACKET_SIZE, 0, false, List.replicate 16 []⟩).halted = true :=
  ⟨by simp only [List.length_replicate, PACKET_SIZE]; norm_num, by decide, by decide,
    (C4_play_segment (List.replicate 13200 0) 2000 101
      (by simp only [List.length_replicate, PACKET_SIZE]; norm_num)
      (by decide) (by decide)).2.1⟩


end NxBCI
